import Mathlib

/-!
Verification of the odds-normalization, no-vig probability and expected-value
engine of the auto-dog repository (src/streamlit_app.py, src/fetch_odds.py).

Modelling conventions:
* Python floats are modelled as exact rationals; Python ints as integers.
* Python dicts are modelled as association lists in insertion order.
  Assigning to an existing key replaces the value in place (keeping the
  original insertion position, as Python dicts do); assigning a fresh key
  appends at the end.  Lookups scan from the front; keys are unique by
  construction.
* The stable sort used by Python (sorted with reverse=True, which keeps
  elements with equal keys in their original relative order) is modelled by
  List.insertionSort with a total preorder; a stable sort wrt a total
  preorder is uniquely determined, so this is semantically faithful.
* round(x, 2) in Python rounds half to even; pyRoundInt models that rule
  exactly on rationals.
-/

/-- Lookup in an association list modelling a Python dict. -/
def lookupDict {α : Type} : List (String × α) → String → Option α
  | [], _ => none
  | (k0, v) :: rest, k => if k0 = k then some v else lookupDict rest k

/-- Assignment d[k] = v on a Python dict: replace in place when the key is
present, append otherwise. -/
def dictInsert {α : Type} (d : List (String × α)) (k : String) (v : α) :
    List (String × α) :=
  if d.any (fun kv => kv.1 = k) then
    d.map (fun kv => if kv.1 = k then (k, v) else kv)
  else d ++ [(k, v)]

/-- american_to_prob (src/streamlit_app.py line 110): implied probability of
American odds.  The else branch also covers odds = 0, giving 0/100 = 0. -/
def american_to_prob (odds : ℤ) : ℚ :=
  if 0 < odds then 100 / ((odds : ℚ) + 100)
  else |(odds : ℚ)| / (|(odds : ℚ)| + 100)

/-- calc_fair_prob_from_two_sides (line 117): proportional devig of a two-way
market. -/
def calc_fair_prob_from_two_sides (odds1 odds2 : ℤ) : ℚ :=
  let p1 := american_to_prob odds1
  let p2 := american_to_prob odds2
  p1 / (p1 + p2)

/-- calculate_payout (line 121): rank bonus plus dollar return on a notional
100 stake. -/
def calculate_payout (rank : ℕ) (real_odds : ℤ) : ℚ :=
  let rank_bonus : ℚ := 20 * (rank : ℚ)
  let odds_payout : ℚ :=
    if real_odds < 0 then (100 / |(real_odds : ℚ)|) * 100 else (real_odds : ℚ)
  rank_bonus + odds_payout

/-- Round a rational to the nearest integer, halves to even (the rule Python
round uses). -/
def pyRoundInt (q : ℚ) : ℤ :=
  let f := ⌊q⌋
  let r := q - (f : ℚ)
  if r < 1/2 then f
  else if (1:ℚ)/2 < r then f + 1
  else if f % 2 = 0 then f else f + 1

/-- round(x, 2) in Python: two decimal places, halves to even. -/
def round2 (q : ℚ) : ℚ := (pyRoundInt (q * 100) : ℚ) / 100

/-- One element of the per-book detail list built in fetch_live_market_data
(lines 73-76). -/
structure BookPair where
  book : String
  team_odds : ℤ
  opp_odds : ℤ
  fair_prob : ℚ
  deriving DecidableEq

/-- The book_pairs loop of fetch_live_market_data (lines 62-76): for every
book quoting side 1, look the same book up on side 2; skip the pair when
either quote is absent or when both sides are exactly -110; otherwise record
the book name (market_config lookup with a placeholder default) and the
devigged probability of side 1. -/
def pair_of_book (market_config : List (String × String))
    (t2_markets : List (String × Option ℤ)) (bo : String × Option ℤ) :
    Option BookPair :=
  match lookupDict t2_markets bo.1 with
  | none => none
  | some o2q =>
    match bo.2, o2q with
    | some o1, some o2 =>
        if o1 = -110 ∧ o2 = -110 then none
        else some { book := (lookupDict market_config bo.1).getD ("Book " ++ bo.1),
                    team_odds := o1, opp_odds := o2,
                    fair_prob := calc_fair_prob_from_two_sides o1 o2 }
    | _, _ => none

/-- The full book_pairs list of one event (lines 62-76). -/
def build_book_pairs (market_config : List (String × String))
    (t1_markets t2_markets : List (String × Option ℤ)) : List BookPair :=
  t1_markets.filterMap (pair_of_book market_config t2_markets)

/-- The flipped detail row stored for the opposing team (lines 84-88). -/
def flip_pair (b : BookPair) : BookPair :=
  { book := b.book, team_odds := b.opp_odds, opp_odds := b.team_odds,
    fair_prob := 1 - b.fair_prob }

/-- Lines 78-88 of fetch_live_market_data for a single event: when at least
one book pair qualifies, store the mean per-book fair probability for team 1,
its complement for team 2, and the two detail lists. -/
def process_event (market_config : List (String × String))
    (averaged_probs : List (String × ℚ))
    (detailed_odds : List (String × List BookPair))
    (t1_id t2_id : String)
    (t1_markets t2_markets : List (String × Option ℤ)) :
    List (String × ℚ) × List (String × List BookPair) :=
  let book_pairs := build_book_pairs market_config t1_markets t2_markets
  if book_pairs.isEmpty then (averaged_probs, detailed_odds)
  else
    let avg_p1 := (book_pairs.map BookPair.fair_prob).sum / (book_pairs.length : ℚ)
    (dictInsert (dictInsert averaged_probs t1_id avg_p1) t2_id (1 - avg_p1),
     dictInsert (dictInsert detailed_odds t1_id book_pairs) t2_id
       (book_pairs.map flip_pair))

/-- One option of the poll feed: label, quoted odds string, vote count. -/
structure PollOption where
  label : String
  odds : String
  count : ℕ
  deriving DecidableEq

/-- One value of team_config.json (the fields process_poll_data reads). -/
structure TeamInfo where
  abbrevation : String
  league_id : ℤ
  deriving DecidableEq

/-- One value of the dog_snapshot dict built by process_poll_data. -/
structure DogEntry where
  name : String
  odds : ℤ
  votes : ℕ
  team_id : Option String
  rank : ℕ
  deriving DecidableEq

/-- Removal of every plus sign, as str.replace does on a one-character
pattern. -/
def strip_plus (s : String) : String := String.mk (s.data.filter fun c => c != '+')

/-- Value of a decimal digit character. -/
def digitVal (c : Char) : Option ℕ :=
  if '0' ≤ c ∧ c ≤ '9' then some (c.toNat - '0'.toNat) else none

/-- Parse of a non-empty all-digit character list. -/
def parseNatDigits (cs : List Char) : Option ℕ :=
  match cs with
  | [] => none
  | _ => cs.foldl (fun acc c => acc.bind fun n => (digitVal c).map fun d => n * 10 + d)
      (some 0)

/-- Parse of the int() constructor on an optionally negated digit string;
anything else fails. -/
def parseIntChars (cs : List Char) : Option ℤ :=
  match cs with
  | '-' :: rest => (parseNatDigits rest).map fun n => -(n : ℤ)
  | _ => (parseNatDigits cs).map fun n => (n : ℤ)

/-- Odds parsing of process_poll_data (line 136): drop plus signs, parse an
integer, default to 0 on failure. -/
def parse_odds (s : String) : ℤ := (parseIntChars (strip_plus s).data).getD 0

/-- The abbr_to_id dict comprehension of process_poll_data (line 130)
restricted to league 6, followed by .get: with duplicate abbreviations the
last write wins. -/
def abbr_to_id (team_config : List (String × TeamInfo)) (name : String) :
    Option String :=
  ((team_config.filter fun kv =>
      kv.2.league_id == 6 && kv.2.abbrevation == name).map Prod.fst).getLast?

/-- One iteration of the dog_snapshot construction loop (lines 133-139). -/
def snapshot_step (abbr : String → Option String)
    (d : List (String × DogEntry)) (opt : PollOption) : List (String × DogEntry) :=
  dictInsert d opt.label
    { name := opt.label, odds := parse_odds opt.odds, votes := opt.count,
      team_id := abbr opt.label, rank := 0 }

/-- The dog_snapshot construction loop of process_poll_data (lines 132-139). -/
def build_snapshot (abbr : String → Option String) (options : List PollOption) :
    List (String × DogEntry) :=
  options.foldl (snapshot_step abbr) []

/-- The sort key of line 141: votes of a key of the snapshot dict. -/
def voteOf (d : List (String × DogEntry)) (k : String) : ℕ :=
  ((lookupDict d k).map DogEntry.votes).getD 0

/-- sorted(dog_snapshot, key=votes, reverse=True) (line 141): keys in stable
descending vote order. -/
def sorted_keys (d : List (String × DogEntry)) : List String :=
  List.insertionSort (fun k1 k2 => voteOf d k2 ≤ voteOf d k1) (d.map Prod.fst)

/-- Assignment dog_snapshot[key][rank] = r for a single key. -/
def set_rank (d : List (String × DogEntry)) (k : String) (r : ℕ) :
    List (String × DogEntry) :=
  d.map fun kv => if kv.1 = k then (kv.1, { kv.2 with rank := r }) else kv

/-- The enumerate(sorted_keys, 1) loop of lines 142-143, starting at rank i. -/
def assign_ranks_from (i : ℕ) (keys : List String)
    (d : List (String × DogEntry)) : List (String × DogEntry) :=
  match keys with
  | [] => d
  | k :: rest => assign_ranks_from (i + 1) rest (set_rank d k i)

/-- process_poll_data (lines 126-144).  A missing raw payload or missing poll
key yields the empty dict; otherwise build the snapshot and assign 1-based
ranks along the sorted key order. -/
def process_poll_data (raw : Option (List PollOption))
    (team_config : List (String × TeamInfo)) : List (String × DogEntry) :=
  match raw with
  | none => []
  | some options =>
      let snapshot := build_snapshot (abbr_to_id team_config) options
      assign_ranks_from 1 (sorted_keys snapshot) snapshot

/-- The session state the EV computation reads (manual_probs, live_probs,
dog_data). -/
structure AppState where
  manual_probs : List (String × ℚ)
  live_probs : List (String × ℚ)
  dog_data : List (String × DogEntry)

/-- Line 228: merged dict with manual probabilities overriding live ones. -/
def final_probs (s : AppState) (tid : String) : Option ℚ :=
  match lookupDict s.manual_probs tid with
  | some p => some p
  | none => lookupDict s.live_probs tid

/-- The Refresh All Data handler (lines 249-251) followed by the reload block
(lines 158-213): live probabilities and poll data are refetched and replaced,
manual_probs is left untouched. -/
def refresh_all_data (s : AppState) (new_live : List (String × ℚ))
    (new_dog : List (String × DogEntry)) : AppState :=
  { manual_probs := s.manual_probs, live_probs := new_live, dog_data := new_dog }

/-- The manual-entry Save handler (lines 273-276): when both entered odds are
non-zero, store the devigged probability under the row key. -/
def save_manual (s : AppState) (tid : String) (s1 s2 : ℤ) : AppState :=
  if s1 ≠ 0 ∧ s2 ≠ 0 then
    { s with manual_probs :=
        dictInsert s.manual_probs tid (calc_fair_prob_from_two_sides s1 s2) }
  else s

/-- str(x) applied to an optional string: str(None) is the literal string
None (line 233). -/
def pyStr (o : Option String) : String :=
  match o with
  | some s => s
  | none => "None"

/-- One row of results_list (lines 238-242). -/
structure ResultRow where
  team : String
  tid : String
  rank : ℕ
  real_odds : ℤ
  calc_payout : ℚ
  fair_prob : Option ℚ
  ev : ℚ
  missing : Bool
  deriving DecidableEq

/-- The row construction of lines 232-242: stringified team id, probability
lookup, payout, and EV rounded to two decimals.  The Python truthiness test
if fair_prob makes both a missing and a zero probability yield EV 0. -/
def mk_result_row (fp : String → Option ℚ) (name : String) (data : DogEntry) :
    ResultRow :=
  let tid := pyStr data.team_id
  let fair_prob := fp tid
  let payout := calculate_payout data.rank data.odds
  { team := name, tid := tid, rank := data.rank, real_odds := data.odds,
    calc_payout := round2 payout,
    fair_prob := fair_prob,
    ev := match fair_prob with
          | none => 0
          | some p => if p = 0 then 0 else round2 (payout * p),
    missing := fair_prob.isNone }

/-- results_list (lines 231-242): one row per poll entry. -/
def results_list (fp : String → Option ℚ) (dog : List (String × DogEntry)) :
    List ResultRow :=
  dog.map fun nd => mk_result_row fp nd.1 nd.2

/-- valid_df (line 282): rows that are not missing, sorted by EV descending.
Claims below only use membership in this list, which is sort-order
independent. -/
def valid_rows (rows : List ResultRow) : List ResultRow :=
  List.insertionSort (fun a b => b.ev ≤ a.ev) (rows.filter fun r => !r.missing)

/-! ### Association-list lemmas -/

theorem lookupDict_append_of_none {α : Type} (d l : List (String × α)) (k : String)
    (h : lookupDict d k = none) : lookupDict (d ++ l) k = lookupDict l k := by
  induction d with
  | nil => rfl
  | cons kv rest ih =>
      obtain ⟨k0, v⟩ := kv
      by_cases hk : k0 = k
      · simp [lookupDict, hk] at h
      · simp only [List.cons_append, lookupDict, if_neg hk] at h ⊢
        exact ih h

theorem lookupDict_append_singleton_ne {α : Type} (d : List (String × α))
    (k k' : String) (v : α) (h : k' ≠ k) :
    lookupDict (d ++ [(k, v)]) k' = lookupDict d k' := by
  induction d with
  | nil => simp [lookupDict, Ne.symm h]
  | cons kv rest ih =>
      obtain ⟨k0, v0⟩ := kv
      by_cases hk : k0 = k'
      · simp [lookupDict, hk]
      · simp only [List.cons_append, lookupDict, if_neg hk]
        exact ih

theorem lookupDict_none_of_any_false {α : Type} (d : List (String × α)) (k : String)
    (h : d.any (fun kv => decide (kv.1 = k)) = false) : lookupDict d k = none := by
  induction d with
  | nil => rfl
  | cons kv rest ih =>
      simp only [List.any_cons, Bool.or_eq_false_iff, decide_eq_false_iff_not] at h
      simp only [lookupDict, if_neg h.1]
      exact ih h.2

theorem lookupDict_map_replace_self {α : Type} (d : List (String × α)) (k : String) (v : α) :
    lookupDict (d.map fun kv => if kv.1 = k then (k, v) else kv) k
      = if d.any (fun kv => decide (kv.1 = k)) then some v else none := by
  induction d with
  | nil => rfl
  | cons kv rest ih =>
      obtain ⟨k0, v0⟩ := kv
      simp only [List.map_cons, List.any_cons]
      by_cases hk : k0 = k
      · rw [show (if (k0, v0).1 = k then (k, v) else (k0, v0)) = (k, v) by simp [hk]]
        simp [lookupDict, hk]
      · rw [show (if (k0, v0).1 = k then (k, v) else (k0, v0)) = (k0, v0) by simp [hk]]
        simp only [lookupDict, if_neg hk, ih]
        simp only [decide_eq_false hk, Bool.false_or]

theorem lookupDict_map_replace_ne {α : Type} (d : List (String × α)) (k k' : String) (v : α)
    (h : k' ≠ k) :
    lookupDict (d.map fun kv => if kv.1 = k then (k, v) else kv) k' = lookupDict d k' := by
  induction d with
  | nil => rfl
  | cons kv rest ih =>
      obtain ⟨k0, v0⟩ := kv
      simp only [List.map_cons]
      by_cases hk : k0 = k
      · rw [show (if (k0, v0).1 = k then (k, v) else (k0, v0)) = (k, v) by simp [hk]]
        simp only [lookupDict, if_neg (Ne.symm h), if_neg (hk ▸ Ne.symm h : ¬ k0 = k'), ih]
      · rw [show (if (k0, v0).1 = k then (k, v) else (k0, v0)) = (k0, v0) by simp [hk]]
        simp only [lookupDict, ih]

theorem lookupDict_dictInsert_self {α : Type} (d : List (String × α)) (k : String) (v : α) :
    lookupDict (dictInsert d k v) k = some v := by
  unfold dictInsert
  by_cases h : (d.any fun kv => decide (kv.1 = k)) = true
  · rw [if_pos h, lookupDict_map_replace_self, if_pos h]
  · have hf : (d.any fun kv => decide (kv.1 = k)) = false := by
      rwa [Bool.not_eq_true] at h
    rw [if_neg h, lookupDict_append_of_none _ _ _ (lookupDict_none_of_any_false _ _ hf)]
    simp [lookupDict]

theorem lookupDict_dictInsert_ne {α : Type} (d : List (String × α)) (k k' : String) (v : α)
    (h : k' ≠ k) : lookupDict (dictInsert d k v) k' = lookupDict d k' := by
  unfold dictInsert
  by_cases hc : (d.any fun kv => decide (kv.1 = k)) = true
  · rw [if_pos hc, lookupDict_map_replace_ne _ _ _ _ h]
  · rw [if_neg hc, lookupDict_append_singleton_ne _ _ _ _ h]

/-! ### Probability conversion lemmas -/

theorem american_to_prob_pos (o : ℤ) (ho : o ≠ 0) : 0 < american_to_prob o := by
  unfold american_to_prob
  by_cases h : 0 < o
  · rw [if_pos h]
    apply div_pos (by norm_num)
    have : (0:ℚ) < (o:ℚ) := by exact_mod_cast h
    linarith
  · rw [if_neg h]
    have habs : (0:ℚ) < |(o:ℚ)| := abs_pos.mpr (by exact_mod_cast ho)
    apply div_pos habs
    linarith

theorem american_to_prob_lt_one (o : ℤ) : american_to_prob o < 1 := by
  unfold american_to_prob
  by_cases h : 0 < o
  · rw [if_pos h]
    have : (0:ℚ) < (o:ℚ) := by exact_mod_cast h
    rw [div_lt_one (by linarith)]
    linarith
  · rw [if_neg h]
    have habs : (0:ℚ) ≤ |(o:ℚ)| := abs_nonneg _
    rw [div_lt_one (by linarith)]
    linarith

/-! ### Rounding lemmas -/

theorem pyRoundInt_of_floor (q : ℚ) (f : ℤ) (hf : ⌊q⌋ = f) :
    pyRoundInt q = if q - (f : ℚ) < 1/2 then f
      else if (1:ℚ)/2 < q - (f : ℚ) then f + 1
      else if f % 2 = 0 then f else f + 1 := by
  simp only [pyRoundInt, hf]

/-! ### Claim C2 -/

/-- Claim C2: for every pair of non-zero American odds, the devigged
probability of one side plus the devigged probability of the other side is
exactly 1. -/
theorem pair_fair_prob_sum_one (o1 o2 : ℤ) (h1 : o1 ≠ 0) (h2 : o2 ≠ 0) :
    calc_fair_prob_from_two_sides o1 o2 + calc_fair_prob_from_two_sides o2 o1 = 1 := by
  have ha := american_to_prob_pos o1 h1
  have hb := american_to_prob_pos o2 h2
  show american_to_prob o1 / (american_to_prob o1 + american_to_prob o2)
      + american_to_prob o2 / (american_to_prob o2 + american_to_prob o1) = 1
  rw [add_comm (american_to_prob o2) (american_to_prob o1), div_add_div_same,
    div_self (ne_of_gt (by linarith))]

/-- Witness for C2 at the odds pair (+150, -120). -/
theorem pair_fair_prob_sum_one_witness :
    calc_fair_prob_from_two_sides 150 (-120) + calc_fair_prob_from_two_sides (-120) 150 = 1 :=
  pair_fair_prob_sum_one 150 (-120) (by decide) (by decide)

/-! ### Claim C5 -/

/-- Claim C5 (amended): american_to_prob returns 0 for odds 0 instead of
raising a domain error, and for every non-zero odds it returns the stated
conversion formulas, whose value lies strictly between 0 and 1. -/
theorem american_to_prob_total_spec (o : ℤ) :
    (0 < o → american_to_prob o = 100 / ((o : ℚ) + 100))
    ∧ (o < 0 → american_to_prob o = |(o : ℚ)| / (|(o : ℚ)| + 100))
    ∧ american_to_prob 0 = 0
    ∧ (o ≠ 0 → 0 < american_to_prob o ∧ american_to_prob o < 1) := by
  refine ⟨fun h => ?_, fun h => ?_, by simp [american_to_prob],
    fun h => ⟨american_to_prob_pos o h, american_to_prob_lt_one o⟩⟩
  · unfold american_to_prob
    rw [if_pos h]
  · unfold american_to_prob
    rw [if_neg (by omega)]

/-- Witness for C5 at odds +150, -120. -/
theorem american_to_prob_total_spec_witness :
    american_to_prob 150 = 100 / (((150 : ℤ) : ℚ) + 100)
    ∧ american_to_prob (-120) = |((-120 : ℤ) : ℚ)| / (|((-120 : ℤ) : ℚ)| + 100)
    ∧ (0 < american_to_prob (-120) ∧ american_to_prob (-120) < 1) :=
  ⟨(american_to_prob_total_spec 150).1 (by decide),
   (american_to_prob_total_spec (-120)).2.1 (by decide),
   (american_to_prob_total_spec (-120)).2.2.2 (by decide)⟩

/-- Claim C5 counterexample: the call american_to_prob 0 does not fail with a
domain error; the else branch of the source covers odds 0 and returns the
value 0/100 = 0 normally. -/
theorem american_to_prob_zero_counterexample :
    american_to_prob 0 = 0 ∧ ¬ 0 < american_to_prob 0 := by
  have h : american_to_prob 0 = 0 := by simp [american_to_prob]
  exact ⟨h, by rw [h]; exact lt_irrefl 0⟩

/-! ### Claim C1 -/

/-- Claim C1 (amended): for every poll entry whose fair probability is present
and non-zero, the reported expected value equals payout(rank, realOdds) times
fairProbability rounded to two decimal places; payout(1, 150) = 170 and
payout(2, -120) = 40 + (100/120)*100 hold exactly. -/
theorem ev_eq_round2_payout_times_prob
    (fp : String → Option ℚ) (name : String) (data : DogEntry) (p : ℚ)
    (hfp : fp (pyStr data.team_id) = some p) (hp : p ≠ 0) :
    (mk_result_row fp name data).ev
      = round2 (calculate_payout data.rank data.odds * p)
    ∧ calculate_payout 1 150 = 170
    ∧ calculate_payout 2 (-120) = 40 + (100 / 120) * 100 := by
  refine ⟨?_, by norm_num [calculate_payout], by norm_num [calculate_payout]⟩
  simp only [mk_result_row, hfp]
  simp [hp]

/-- Witness for C1 at rank 1, odds +150, probability 1/2. -/
theorem ev_eq_round2_payout_times_prob_witness :
    (mk_result_row (fun _ => some ((1:ℚ)/2)) "EDM"
        { name := "EDM", odds := 150, votes := 10, team_id := some "5", rank := 1 }).ev
      = round2 (calculate_payout 1 150 * ((1:ℚ)/2)) :=
  (ev_eq_round2_payout_times_prob (fun _ => some ((1:ℚ)/2)) "EDM"
      { name := "EDM", odds := 150, votes := 10, team_id := some "5", rank := 1 }
      ((1:ℚ)/2) rfl (by norm_num)).1

/-- Claim C1 counterexample: at rank 1, odds +150 and fair probability 1/3
the reported EV is round(170/3, 2) = 56.67, which differs from the exact
product 170/3, so the reported EV does not equal the product exactly. -/
theorem ev_rounding_counterexample :
    (mk_result_row (fun _ => some ((1:ℚ)/3)) "EDM"
        { name := "EDM", odds := 150, votes := 10, team_id := some "5", rank := 1 }).ev
      ≠ calculate_payout 1 150 * ((1:ℚ)/3) := by
  have hpay : calculate_payout 1 150 = 170 := by norm_num [calculate_payout]
  have hev : (mk_result_row (fun _ => some ((1:ℚ)/3)) "EDM"
      { name := "EDM", odds := 150, votes := 10, team_id := some "5", rank := 1 }).ev
      = round2 (calculate_payout 1 150 * ((1:ℚ)/3)) := by
    simp only [mk_result_row]
    norm_num
  rw [hev, hpay]
  have hq : (170:ℚ) * (1/3) * 100 = 17000/3 := by norm_num
  have hfl : ⌊(17000:ℚ)/3⌋ = 5666 := by
    rw [Int.floor_eq_iff]
    norm_num
  have hri : pyRoundInt ((170:ℚ) * (1/3) * 100) = 5667 := by
    rw [hq, pyRoundInt_of_floor _ _ hfl]
    norm_num
  unfold round2
  rw [hri]
  norm_num

/-! ### Claim C3 -/

theorem pair_of_book_not_placeholder (mc : List (String × String))
    (t2m : List (String × Option ℤ)) (bo : String × Option ℤ) (bp : BookPair)
    (h : pair_of_book mc t2m bo = some bp) :
    ¬(bp.team_odds = -110 ∧ bp.opp_odds = -110) := by
  unfold pair_of_book at h
  split at h
  · exact absurd h (by simp)
  · split at h
    · split at h
      · exact absurd h (by simp)
      · rename_i hcond
        injection h with h2
        subst h2
        simpa using hcond
    · exact absurd h (by simp)

theorem pair_of_book_placeholder_none (mc : List (String × String))
    (t2m : List (String × Option ℤ)) (bid : String)
    (hl : lookupDict t2m bid = some (some (-110))) :
    pair_of_book mc t2m (bid, some (-110)) = none := by
  unfold pair_of_book
  rw [show ((bid, some (-110 : ℤ)).1) = bid from rfl, hl]
  simp

/-- Claim C3: a book pair quoting exactly -110 on both sides is never part of
any book-pair aggregation: no element of the detail list of either side
carries those two quotes, and adding such a quote to the inputs leaves the
aggregated list (hence also the averaged fair probability computed from it)
unchanged. -/
theorem placeholder_pair_never_aggregated
    (mc : List (String × String)) (t1m t2m : List (String × Option ℤ)) :
    (∀ bp ∈ build_book_pairs mc t1m t2m, ¬(bp.team_odds = -110 ∧ bp.opp_odds = -110))
    ∧ (∀ bp ∈ (build_book_pairs mc t1m t2m).map flip_pair,
        ¬(bp.team_odds = -110 ∧ bp.opp_odds = -110))
    ∧ (∀ bid, lookupDict t2m bid = some (some (-110)) →
        build_book_pairs mc (t1m ++ [(bid, some (-110))]) t2m
          = build_book_pairs mc t1m t2m) := by
  have key : ∀ bp ∈ build_book_pairs mc t1m t2m,
      ¬(bp.team_odds = -110 ∧ bp.opp_odds = -110) := by
    intro bp hbp
    simp only [build_book_pairs, List.mem_filterMap] at hbp
    obtain ⟨a, _, hfa⟩ := hbp
    exact pair_of_book_not_placeholder mc t2m a bp hfa
  refine ⟨key, ?_, ?_⟩
  · intro bp hbp
    obtain ⟨b, hb, rfl⟩ := List.mem_map.mp hbp
    have := key b hb
    intro hcontra
    exact this ⟨hcontra.2, hcontra.1⟩
  · intro bid hbid
    unfold build_book_pairs
    rw [List.filterMap_append]
    rw [show List.filterMap (pair_of_book mc t2m) [(bid, some (-110))] = [] by
      simp [List.filterMap, pair_of_book_placeholder_none mc t2m bid hbid]]
    simp

/-- Witness for C3: the single qualifying pair of a concrete event does not
carry the double -110 quote. -/
theorem placeholder_pair_never_aggregated_witness :
    ¬(({ book := "Book 5", team_odds := 120, opp_odds := -130,
          fair_prob := calc_fair_prob_from_two_sides 120 (-130) } : BookPair).team_odds = -110
      ∧ ({ book := "Book 5", team_odds := 120, opp_odds := -130,
            fair_prob := calc_fair_prob_from_two_sides 120 (-130) } : BookPair).opp_odds = -110) :=
  (placeholder_pair_never_aggregated [] [("5", some 120)] [("5", some (-130))]).1
    { book := "Book 5", team_odds := 120, opp_odds := -130,
      fair_prob := calc_fair_prob_from_two_sides 120 (-130) }
    (by simp [build_book_pairs, pair_of_book, lookupDict])

/-! ### Claim C4 -/

/-- Claim C4: for every event with at least one qualifying book pair (and the
two sides carrying distinct ids), the stored event-level fair probability of
side A is the arithmetic mean of the qualifying per-book fair probabilities
and side B gets exactly 1 minus that mean; the mean of the example fair
probabilities [0.52, 0.48, 0.55] is 31/60 = 0.51666…, with complement 29/60. -/
theorem event_mean_and_complement
    (mc : List (String × String)) (probs : List (String × ℚ))
    (det : List (String × List BookPair)) (t1 t2 : String)
    (t1m t2m : List (String × Option ℤ))
    (hne : t1 ≠ t2)
    (hq : build_book_pairs mc t1m t2m ≠ []) :
    lookupDict (process_event mc probs det t1 t2 t1m t2m).1 t1
      = some (((build_book_pairs mc t1m t2m).map BookPair.fair_prob).sum
          / ((build_book_pairs mc t1m t2m).length : ℚ))
    ∧ lookupDict (process_event mc probs det t1 t2 t1m t2m).1 t2
      = some (1 - ((build_book_pairs mc t1m t2m).map BookPair.fair_prob).sum
          / ((build_book_pairs mc t1m t2m).length : ℚ))
    ∧ (([{ book := "b1", team_odds := 0, opp_odds := 0, fair_prob := 52/100 },
         { book := "b2", team_odds := 0, opp_odds := 0, fair_prob := 48/100 },
         { book := "b3", team_odds := 0, opp_odds := 0, fair_prob := 55/100 }] :
          List BookPair).map BookPair.fair_prob).sum / 3 = 31/60
    ∧ (1 : ℚ) - 31/60 = 29/60 := by
  have hne' : ¬((build_book_pairs mc t1m t2m).isEmpty = true) := by
    simpa [List.isEmpty_iff] using hq
  refine ⟨?_, ?_, ?_, by norm_num⟩
  · simp only [process_event, if_neg hne']
    rw [lookupDict_dictInsert_ne _ _ _ _ hne, lookupDict_dictInsert_self]
  · simp only [process_event, if_neg hne']
    rw [lookupDict_dictInsert_self]
  · simp only [List.map_cons, List.map_nil, List.sum_cons, List.sum_nil]
    norm_num

/-- Witness for C4 on a concrete one-book event. -/
theorem event_mean_and_complement_witness :
    lookupDict (process_event [] [] [] "a" "b" [("5", some 120)] [("5", some (-130))]).1 "b"
      = some (1 - ((build_book_pairs [] [("5", some 120)] [("5", some (-130))]).map
            BookPair.fair_prob).sum
          / ((build_book_pairs [] [("5", some 120)] [("5", some (-130))]).length : ℚ)) :=
  (event_mean_and_complement [] [] [] "a" "b" [("5", some 120)] [("5", some (-130))]
    (by decide) (by simp [build_book_pairs, pair_of_book, lookupDict])).2.1

/-! ### Rows with missing probabilities (shared helpers) -/

theorem row_missing_of_none (fp : String → Option ℚ) (name : String) (data : DogEntry)
    (hnone : fp (pyStr data.team_id) = none) :
    (mk_result_row fp name data).missing = true ∧ (mk_result_row fp name data).ev = 0 := by
  constructor <;> simp [mk_result_row, hnone]

theorem row_not_mem_valid (rows : List ResultRow) (r : ResultRow)
    (hr : r.missing = true) : r ∉ valid_rows rows := by
  intro hmem
  unfold valid_rows at hmem
  have h1 : r ∈ rows.filter (fun r => !r.missing) :=
    (List.perm_insertionSort _ _).mem_iff.mp hmem
  have h2 := (List.mem_filter.mp h1).2
  rw [hr] at h2
  simp at h2

/-! ### Claim C7 -/

/-- Claim C7: a poll entry with no available fair probability produces a
report row flagged missing, with reported EV 0, present in the report but
excluded from the sorted valid partition. -/
theorem missing_entry_flagged_and_excluded
    (fp : String → Option ℚ) (dog : List (String × DogEntry))
    (name : String) (data : DogEntry)
    (hmem : (name, data) ∈ dog)
    (hnone : fp (pyStr data.team_id) = none) :
    (mk_result_row fp name data).missing = true
    ∧ (mk_result_row fp name data).ev = 0
    ∧ mk_result_row fp name data ∈ results_list fp dog
    ∧ mk_result_row fp name data ∉ valid_rows (results_list fp dog) := by
  obtain ⟨h1, h2⟩ := row_missing_of_none fp name data hnone
  refine ⟨h1, h2, ?_, row_not_mem_valid _ _ h1⟩
  exact List.mem_map.mpr ⟨(name, data), hmem, rfl⟩

/-- Witness for C7 on a one-entry report with no probabilities. -/
theorem missing_entry_flagged_and_excluded_witness :
    mk_result_row (fun _ => none) "XX"
        { name := "XX", odds := 150, votes := 3, team_id := none, rank := 1 }
      ∉ valid_rows (results_list (fun _ => none)
        [("XX", { name := "XX", odds := 150, votes := 3, team_id := none, rank := 1 })]) :=
  (missing_entry_flagged_and_excluded (fun _ => none)
    [("XX", { name := "XX", odds := 150, votes := 3, team_id := none, rank := 1 })]
    "XX" { name := "XX", odds := 150, votes := 3, team_id := none, rank := 1 }
    (by simp) rfl).2.2.2

/-! ### Claim C9 -/

/-- Claim C9 (amended): the report contains one row for every poll entry,
resolvable or not; an entry whose abbreviation does not resolve carries the
stringified id None in its row and, as long as no probability is stored under
that shared key, it is flagged missing and excluded from EV scoring. -/
theorem report_rows_and_unresolved_entries
    (fp : String → Option ℚ) (dog : List (String × DogEntry)) :
    (results_list fp dog).length = dog.length
    ∧ ∀ name data, (name, data) ∈ dog → data.team_id = none →
        (mk_result_row fp name data).tid = "None"
        ∧ (fp "None" = none →
            (mk_result_row fp name data).missing = true
            ∧ mk_result_row fp name data ∉ valid_rows (results_list fp dog)) := by
  refine ⟨by simp [results_list], fun name data hmem hid => ⟨?_, fun hfp => ?_⟩⟩
  · simp [mk_result_row, pyStr, hid]
  · have hnone : fp (pyStr data.team_id) = none := by
      rw [hid]
      exact hfp
    exact ⟨(row_missing_of_none fp name data hnone).1,
      row_not_mem_valid _ _ (row_missing_of_none fp name data hnone).1⟩

/-- Witness for C9 on a one-entry report whose entry is unresolved. -/
theorem report_rows_and_unresolved_entries_witness :
    (mk_result_row (fun _ => none) "XX"
        { name := "XX", odds := 150, votes := 3, team_id := none, rank := 1 }).tid
      = "None" :=
  ((report_rows_and_unresolved_entries (fun _ => none)
      [("XX", { name := "XX", odds := 150, votes := 3, team_id := none, rank := 1 })]).2
    "XX" { name := "XX", odds := 150, votes := 3, team_id := none, rank := 1 }
    (by simp) rfl).1

/-- Claim C9 counterexample: the report does contain a row for a poll entry
whose abbreviation did not resolve, so not every report row corresponds to an
entry with a resolvable team id; the row carries the stringified id None. -/
theorem report_row_exists_for_unresolved :
    (results_list (fun _ => none)
        [("XX", { name := "XX", odds := 150, votes := 3, team_id := none, rank := 1 })]).map
      ResultRow.tid = ["None"] := by
  decide

/-! ### Claim C6 -/

/-- Claim C6 (amended): a manually supplied probability always overrides the
computed probability of the same team in the EV computation of the current
cycle, and it keeps doing so after a refresh cycle: refreshing replaces live
and poll data but leaves manual overrides in place. -/
theorem manual_override_used_and_persists
    (s : AppState) (new_live : List (String × ℚ)) (new_dog : List (String × DogEntry))
    (tid : String) (p : ℚ) (name : String) (data : DogEntry)
    (hman : lookupDict s.manual_probs tid = some p)
    (htid : pyStr data.team_id = tid) :
    (mk_result_row (final_probs s) name data).fair_prob = some p
    ∧ (mk_result_row (final_probs (refresh_all_data s new_live new_dog)) name data).fair_prob
      = some p := by
  have h1 : final_probs s tid = some p := by
    unfold final_probs
    rw [hman]
  have hrm : (refresh_all_data s new_live new_dog).manual_probs = s.manual_probs := rfl
  have h2 : final_probs (refresh_all_data s new_live new_dog) tid = some p := by
    unfold final_probs
    rw [hrm, hman]
  constructor
  · simp [mk_result_row, htid, h1]
  · simp [mk_result_row, htid, h2]

/-- Witness for C6: an override of 3/5 saved for team id 7 is still the
probability used after a refresh that brings live value 9/20. -/
theorem manual_override_used_and_persists_witness :
    (mk_result_row (final_probs (refresh_all_data
          ⟨[("7", (3:ℚ)/5)], [("7", (2:ℚ)/5)], []⟩ [("7", (9:ℚ)/20)] []))
        "EDM" { name := "EDM", odds := 150, votes := 1, team_id := some "7", rank := 1 }).fair_prob
      = some ((3:ℚ)/5) :=
  (manual_override_used_and_persists ⟨[("7", (3:ℚ)/5)], [("7", (2:ℚ)/5)], []⟩
    [("7", (9:ℚ)/20)] [] "7" ((3:ℚ)/5) "EDM"
    { name := "EDM", odds := 150, votes := 1, team_id := some "7", rank := 1 }
    (by simp [lookupDict]) rfl).2

/-- Claim C6 counterexample: a manual override entered in a previous cycle
still takes precedence over the newly fetched live probability after the
Refresh All Data cycle, because the reload block never clears manual_probs;
so overrides do not apply for the current cycle only. -/
theorem manual_override_survives_refresh_counterexample :
    final_probs (refresh_all_data ⟨[("7", (3:ℚ)/5)], [("7", (2:ℚ)/5)], []⟩
        [("7", (9:ℚ)/20)] []) "7" = some ((3:ℚ)/5)
    ∧ ((3:ℚ)/5 ≠ (9:ℚ)/20) := by
  constructor
  · simp [final_probs, refresh_all_data, lookupDict]
  · norm_num

/-! ### Claim C10 -/

/-- Claim C10: every unresolved poll entry carries the literal string None as
its report key (the stringified null id), and a manual probability saved
through the sidebar for one unresolved row is the probability found for every
unresolved entry of the session afterwards. -/
theorem unresolved_entries_share_manual_key
    (s : AppState) (s1 s2 : ℤ) (nameA nameB : String) (dataA dataB : DogEntry)
    (h1 : s1 ≠ 0) (h2 : s2 ≠ 0)
    (hA : dataA.team_id = none) (hB : dataB.team_id = none) :
    (mk_result_row (final_probs s) nameA dataA).tid = "None"
    ∧ (mk_result_row (final_probs (save_manual s
          ((mk_result_row (final_probs s) nameA dataA).tid) s1 s2)) nameB dataB).fair_prob
      = some (calc_fair_prob_from_two_sides s1 s2) := by
  have htidA : (mk_result_row (final_probs s) nameA dataA).tid = "None" := by
    simp [mk_result_row, pyStr, hA]
  refine ⟨htidA, ?_⟩
  rw [htidA]
  have hfair : (mk_result_row (final_probs (save_manual s "None" s1 s2)) nameB dataB).fair_prob
      = final_probs (save_manual s "None" s1 s2) "None" := by
    simp [mk_result_row, pyStr, hB]
  rw [hfair]
  have hsave : (save_manual s "None" s1 s2).manual_probs
      = dictInsert s.manual_probs "None" (calc_fair_prob_from_two_sides s1 s2) := by
    unfold save_manual
    rw [if_pos ⟨h1, h2⟩]
  unfold final_probs
  rw [hsave, lookupDict_dictInsert_self]

/-- Witness for C10: a probability saved for one unresolved entry is found by
a different unresolved entry. -/
theorem unresolved_entries_share_manual_key_witness :
    (mk_result_row (final_probs (save_manual ⟨[], [], []⟩
          ((mk_result_row (final_probs ⟨[], [], []⟩) "A"
            { name := "A", odds := 0, votes := 0, team_id := none, rank := 1 }).tid)
          120 (-130)))
        "B" { name := "B", odds := 0, votes := 0, team_id := none, rank := 2 }).fair_prob
      = some (calc_fair_prob_from_two_sides 120 (-130)) :=
  (unresolved_entries_share_manual_key ⟨[], [], []⟩ 120 (-130) "A" "B"
    { name := "A", odds := 0, votes := 0, team_id := none, rank := 1 }
    { name := "B", odds := 0, votes := 0, team_id := none, rank := 2 }
    (by decide) (by decide) rfl rfl).2

/-! ### Stability of insertionSort -/

theorem sublist_orderedInsert_of_sublist {α : Type} (r : α → α → Prop) [DecidableRel r]
    (x : α) : ∀ (l l' : List α), l'.Sublist l → l'.Sublist (List.orderedInsert r x l) := by
  intro l
  induction l with
  | nil =>
      intro l' h
      rw [List.sublist_nil.mp h]
      exact List.nil_sublist _
  | cons c t ih =>
      intro l' h
      unfold List.orderedInsert
      by_cases hrc : r x c
      · rw [if_pos hrc]
        exact h.cons x
      · rw [if_neg hrc]
        cases h with
        | cons _ h' => exact (ih _ h').cons c
        | cons₂ _ h' => exact (ih _ h').cons₂ c

theorem pair_sublist_orderedInsert {α : Type} (r : α → α → Prop) [DecidableRel r]
    {a b : α} (hab : r a b) : ∀ (l : List α), b ∈ l → List.Sublist [a, b] (List.orderedInsert r a l) := by
  intro l
  induction l with
  | nil =>
      intro h
      simp at h
  | cons c t ih =>
      intro hb
      unfold List.orderedInsert
      by_cases hrc : r a c
      · rw [if_pos hrc]
        exact List.Sublist.cons₂ a (List.singleton_sublist.mpr hb)
      · rw [if_neg hrc]
        have hbc : b ≠ c := fun he => hrc (he ▸ hab)
        have hbt : b ∈ t := by
          rcases List.mem_cons.mp hb with h | h
          · exact absurd h hbc
          · exact h
        exact (ih hbt).cons c

theorem pair_sublist_insertionSort {α : Type} (r : α → α → Prop) [DecidableRel r]
    {a b : α} (hab : r a b) : ∀ (l : List α), List.Sublist [a, b] l →
    List.Sublist [a, b] (List.insertionSort r l) := by
  intro l
  induction l with
  | nil =>
      intro h
      simp at h
  | cons c t ih =>
      intro h
      rw [List.insertionSort]
      cases h with
      | cons _ h' => exact sublist_orderedInsert_of_sublist r c _ _ (ih h')
      | cons₂ _ h' =>
          have hbt : b ∈ List.insertionSort r t :=
            (List.perm_insertionSort r t).mem_iff.mpr (List.singleton_sublist.mp h')
          exact pair_sublist_orderedInsert r hab _ hbt

theorem indexOf_lt_of_pair_sublist {α : Type} [DecidableEq α] {a b : α} :
    ∀ (l : List α), List.Sublist [a, b] l → l.Nodup → List.indexOf a l < List.indexOf b l := by
  intro l
  induction l with
  | nil =>
      intro h _
      simp at h
  | cons c t ih =>
      intro h hnd
      have hct : c ∉ t := (List.nodup_cons.mp hnd).1
      have hndt : t.Nodup := (List.nodup_cons.mp hnd).2
      cases h with
      | cons _ h' =>
          have hat : a ∈ t := h'.subset (by simp)
          have hbt : b ∈ t := h'.subset (by simp)
          have hca : c ≠ a := fun he => hct (he ▸ hat)
          have hcb : c ≠ b := fun he => hct (he ▸ hbt)
          rw [List.indexOf_cons_ne _ hca, List.indexOf_cons_ne _ hcb]
          exact Nat.succ_lt_succ (ih h' hndt)
      | cons₂ _ h' =>
          have hbt : b ∈ t := List.singleton_sublist.mp h'
          have hab : a ≠ b := fun he => hct (he ▸ hbt)
          rw [List.indexOf_cons_self, List.indexOf_cons_ne _ hab]
          exact Nat.succ_pos _

theorem pair_sublist_of_lt {α : Type} : ∀ (l : List α) (i j : ℕ) (hi : i < l.length)
    (hj : j < l.length), i < j → List.Sublist [l.get ⟨i, hi⟩, l.get ⟨j, hj⟩] l := by
  intro l
  induction l with
  | nil =>
      intro i j hi
      simp at hi
  | cons c t ih =>
      intro i j hi hj hij
      cases i with
      | zero =>
          cases j with
          | zero => omega
          | succ j' =>
              simp only [List.get_cons_zero, List.get_cons_succ]
              exact List.Sublist.cons₂ c
                (List.singleton_sublist.mpr (t.get_mem _ _))
      | succ i' =>
          cases j with
          | zero => omega
          | succ j' =>
              simp only [List.get_cons_succ]
              exact (ih i' j' _ _ (Nat.lt_of_succ_lt_succ hij)).cons c

/-! ### Snapshot key and rank bookkeeping -/

theorem nodup_keys_dictInsert {α : Type} (d : List (String × α)) (k : String) (v : α)
    (h : (d.map Prod.fst).Nodup) : ((dictInsert d k v).map Prod.fst).Nodup := by
  unfold dictInsert
  by_cases hc : (d.any fun kv => decide (kv.1 = k)) = true
  · rw [if_pos hc]
    have hsame : (d.map fun kv => if kv.1 = k then (k, v) else kv).map Prod.fst
        = d.map Prod.fst := by
      rw [List.map_map]
      apply List.map_congr_left
      intro kv _
      by_cases hk : kv.1 = k
      · simp [Function.comp, hk]
      · simp [Function.comp, hk]
    rw [hsame]
    exact h
  · rw [if_neg hc, List.map_append]
    have hk : k ∉ d.map Prod.fst := by
      intro hmem
      obtain ⟨kv, hkv, hfst⟩ := List.mem_map.mp hmem
      exact hc (List.any_eq_true.mpr ⟨kv, hkv, by simp [hfst]⟩)
    rw [List.nodup_append]
    refine ⟨h, List.nodup_singleton k, ?_⟩
    intro x hx hx'
    simp only [List.map_cons, List.map_nil, List.mem_singleton] at hx'
    subst hx'
    exact hk hx

theorem nodup_keys_foldl_snapshot (abbr : String → Option String) :
    ∀ (opts : List PollOption) (d : List (String × DogEntry)),
    (d.map Prod.fst).Nodup → (((opts.foldl (snapshot_step abbr) d)).map Prod.fst).Nodup := by
  intro opts
  induction opts with
  | nil =>
      intro d h
      exact h
  | cons o rest ih =>
      intro d h
      exact ih _ (nodup_keys_dictInsert _ _ _ h)

theorem build_snapshot_keys_nodup (abbr : String → Option String)
    (options : List PollOption) : ((build_snapshot abbr options).map Prod.fst).Nodup :=
  nodup_keys_foldl_snapshot abbr options [] (by simp)

theorem lookupDict_get_of_nodup {α : Type} : ∀ (d : List (String × α)),
    (d.map Prod.fst).Nodup → ∀ (i : ℕ) (hi : i < d.length),
    lookupDict d (d.get ⟨i, hi⟩).1 = some (d.get ⟨i, hi⟩).2 := by
  intro d
  induction d with
  | nil =>
      intro _ i hi
      simp at hi
  | cons kv rest ih =>
      intro hnd i hi
      obtain ⟨k0, v0⟩ := kv
      have hnd' : (k0 :: rest.map Prod.fst).Nodup := by simpa using hnd
      cases i with
      | zero => simp [lookupDict]
      | succ i' =>
          have hi' : i' < rest.length := Nat.lt_of_succ_lt_succ hi
          have hk : k0 ≠ (rest.get ⟨i', hi'⟩).1 := by
            intro he
            have hmem : (rest.get ⟨i', hi'⟩).1 ∈ rest.map Prod.fst :=
              List.mem_map.mpr ⟨_, rest.get_mem _ _, rfl⟩
            exact (List.nodup_cons.mp hnd').1 (he ▸ hmem)
          simp only [List.get_cons_succ, lookupDict, if_neg hk]
          exact ih (List.nodup_cons.mp hnd').2 i' hi'

theorem lookupDict_set_rank_ne (d : List (String × DogEntry)) (k k0 : String) (r : ℕ)
    (h : k0 ≠ k) : lookupDict (set_rank d k r) k0 = lookupDict d k0 := by
  induction d with
  | nil => rfl
  | cons kv rest ih =>
      obtain ⟨k1, v1⟩ := kv
      unfold set_rank
      simp only [List.map_cons]
      by_cases hk : k1 = k
      · rw [show (if (k1, v1).1 = k then ((k1, v1).1, { (k1, v1).2 with rank := r })
            else (k1, v1)) = (k1, { v1 with rank := r }) by simp [hk]]
        have hne : k1 ≠ k0 := fun he => h (by rw [← he, hk])
        simp only [lookupDict, if_neg hne]
        exact ih
      · rw [show (if (k1, v1).1 = k then ((k1, v1).1, { (k1, v1).2 with rank := r })
            else (k1, v1)) = (k1, v1) by simp [hk]]
        by_cases hk0 : k1 = k0
        · simp [lookupDict, hk0]
        · simp only [lookupDict, if_neg hk0]
          exact ih

theorem lookupDict_set_rank_self (d : List (String × DogEntry)) (k : String) (r : ℕ) :
    lookupDict (set_rank d k r) k
      = (lookupDict d k).map (fun e => { e with rank := r }) := by
  induction d with
  | nil => rfl
  | cons kv rest ih =>
      obtain ⟨k1, v1⟩ := kv
      unfold set_rank
      simp only [List.map_cons]
      by_cases hk : k1 = k
      · rw [show (if (k1, v1).1 = k then ((k1, v1).1, { (k1, v1).2 with rank := r })
            else (k1, v1)) = (k1, { v1 with rank := r }) by simp [hk]]
        simp [lookupDict, hk]
      · rw [show (if (k1, v1).1 = k then ((k1, v1).1, { (k1, v1).2 with rank := r })
            else (k1, v1)) = (k1, v1) by simp [hk]]
        simp only [lookupDict, if_neg hk]
        exact ih

theorem lookupDict_assign_of_not_mem (k0 : String) : ∀ (ks : List String) (i : ℕ)
    (d : List (String × DogEntry)), k0 ∉ ks →
    lookupDict (assign_ranks_from i ks d) k0 = lookupDict d k0 := by
  intro ks
  induction ks with
  | nil =>
      intro i d _
      rfl
  | cons k rest ih =>
      intro i d hk0
      have h1 : k0 ≠ k := fun he => hk0 (he ▸ List.mem_cons_self k rest)
      unfold assign_ranks_from
      rw [ih (i + 1) _ (fun h => hk0 (List.mem_cons_of_mem _ h))]
      exact lookupDict_set_rank_ne d k k0 i h1

theorem lookupDict_assign_of_mem (k0 : String) : ∀ (ks : List String) (i : ℕ)
    (d : List (String × DogEntry)), ks.Nodup → k0 ∈ ks →
    lookupDict (assign_ranks_from i ks d) k0
      = (lookupDict d k0).map (fun e => { e with rank := i + List.indexOf k0 ks }) := by
  intro ks
  induction ks with
  | nil =>
      intro i d _ h
      simp at h
  | cons k rest ih =>
      intro i d hnd hmem
      unfold assign_ranks_from
      by_cases hk : k0 = k
      · subst hk
        have hnotin : k0 ∉ rest := (List.nodup_cons.mp hnd).1
        rw [lookupDict_assign_of_not_mem k0 rest (i + 1) _ hnotin,
          lookupDict_set_rank_self, List.indexOf_cons_self]
        simp
      · have hmem' : k0 ∈ rest := by
          rcases List.mem_cons.mp hmem with h | h
          · exact absurd h hk
          · exact h
        rw [ih (i + 1) _ (List.nodup_cons.mp hnd).2 hmem',
          lookupDict_set_rank_ne d k k0 i hk,
          List.indexOf_cons_ne _ (fun he => hk he.symm)]
        have harith : i + 1 + List.indexOf k0 rest = i + (List.indexOf k0 rest).succ := by
          omega
        rw [harith]

theorem assign_keys_eq : ∀ (ks : List String) (i : ℕ) (d : List (String × DogEntry)),
    (assign_ranks_from i ks d).map Prod.fst = d.map Prod.fst := by
  intro ks
  induction ks with
  | nil =>
      intro i d
      rfl
  | cons k rest ih =>
      intro i d
      unfold assign_ranks_from
      rw [ih]
      unfold set_rank
      rw [List.map_map]
      apply List.map_congr_left
      intro kv _
      by_cases hk : kv.1 = k
      · simp [Function.comp, hk]
      · simp [Function.comp, hk]

theorem sorted_keys_sorted (d : List (String × DogEntry)) :
    List.Sorted (fun k1 k2 => voteOf d k2 ≤ voteOf d k1) (sorted_keys d) := by
  unfold sorted_keys
  exact @List.sorted_insertionSort String (fun k1 k2 => voteOf d k2 ≤ voteOf d k1) _
    ⟨fun a b => le_total (voteOf d b) (voteOf d a)⟩
    ⟨fun a b c hab hbc => le_trans hbc hab⟩ _

theorem sorted_keys_perm (d : List (String × DogEntry)) :
    (sorted_keys d).Perm (d.map Prod.fst) := List.perm_insertionSort _ _

theorem sorted_keys_length (d : List (String × DogEntry)) :
    (sorted_keys d).length = d.length := by
  rw [(sorted_keys_perm d).length_eq, List.length_map]

theorem poll_entry_spec (opts : List PollOption) (cfg : List (String × TeamInfo))
    (i : ℕ) (hi : i < (process_poll_data (some opts) cfg).length) :
    ((process_poll_data (some opts) cfg).get ⟨i, hi⟩).2.rank
        = 1 + List.indexOf ((process_poll_data (some opts) cfg).get ⟨i, hi⟩).1
            (sorted_keys (build_snapshot (abbr_to_id cfg) opts))
    ∧ voteOf (build_snapshot (abbr_to_id cfg) opts)
        ((process_poll_data (some opts) cfg).get ⟨i, hi⟩).1
      = ((process_poll_data (some opts) cfg).get ⟨i, hi⟩).2.votes
    ∧ ((process_poll_data (some opts) cfg).get ⟨i, hi⟩).1
        ∈ sorted_keys (build_snapshot (abbr_to_id cfg) opts) := by
  have hdog : process_poll_data (some opts) cfg
      = assign_ranks_from 1 (sorted_keys (build_snapshot (abbr_to_id cfg) opts))
          (build_snapshot (abbr_to_id cfg) opts) := rfl
  have hsnd : ((build_snapshot (abbr_to_id cfg) opts).map Prod.fst).Nodup :=
    build_snapshot_keys_nodup _ _
  have hkeys : (process_poll_data (some opts) cfg).map Prod.fst
      = (build_snapshot (abbr_to_id cfg) opts).map Prod.fst := by
    rw [hdog]
    exact assign_keys_eq _ 1 _
  have hdnd : ((process_poll_data (some opts) cfg).map Prod.fst).Nodup := by
    rw [hkeys]
    exact hsnd
  have hsknd : (sorted_keys (build_snapshot (abbr_to_id cfg) opts)).Nodup :=
    (sorted_keys_perm _).nodup_iff.mpr hsnd
  have hlookdog : lookupDict (process_poll_data (some opts) cfg)
      ((process_poll_data (some opts) cfg).get ⟨i, hi⟩).1
      = some ((process_poll_data (some opts) cfg).get ⟨i, hi⟩).2 :=
    lookupDict_get_of_nodup _ hdnd i hi
  have hmemkeys : ((process_poll_data (some opts) cfg).get ⟨i, hi⟩).1
      ∈ (build_snapshot (abbr_to_id cfg) opts).map Prod.fst := by
    rw [← hkeys]
    exact List.mem_map.mpr ⟨_, (process_poll_data (some opts) cfg).get_mem _ _, rfl⟩
  have hmemsk : ((process_poll_data (some opts) cfg).get ⟨i, hi⟩).1
      ∈ sorted_keys (build_snapshot (abbr_to_id cfg) opts) :=
    (sorted_keys_perm _).mem_iff.mpr hmemkeys
  have hassign := lookupDict_assign_of_mem
    ((process_poll_data (some opts) cfg).get ⟨i, hi⟩).1
    (sorted_keys (build_snapshot (abbr_to_id cfg) opts)) 1
    (build_snapshot (abbr_to_id cfg) opts) hsknd hmemsk
  rw [← hdog, hlookdog] at hassign
  rcases hlooksnap : lookupDict (build_snapshot (abbr_to_id cfg) opts)
      ((process_poll_data (some opts) cfg).get ⟨i, hi⟩).1 with _ | e0
  · rw [hlooksnap] at hassign
    simp at hassign
  · rw [hlooksnap] at hassign
    simp only [Option.map_some', Option.some.injEq] at hassign
    refine ⟨?_, ?_, hmemsk⟩
    · rw [hassign]
    · unfold voteOf
      rw [hlooksnap, hassign]
      simp

theorem poll_rank_props (opts : List PollOption) (cfg : List (String × TeamInfo))
    (i j : ℕ) (hi : i < (process_poll_data (some opts) cfg).length)
    (hj : j < (process_poll_data (some opts) cfg).length) :
    (((process_poll_data (some opts) cfg).get ⟨j, hj⟩).2.votes
        < ((process_poll_data (some opts) cfg).get ⟨i, hi⟩).2.votes →
      ((process_poll_data (some opts) cfg).get ⟨i, hi⟩).2.rank
        < ((process_poll_data (some opts) cfg).get ⟨j, hj⟩).2.rank)
    ∧ (i < j →
        ((process_poll_data (some opts) cfg).get ⟨i, hi⟩).2.votes
          = ((process_poll_data (some opts) cfg).get ⟨j, hj⟩).2.votes →
        ((process_poll_data (some opts) cfg).get ⟨i, hi⟩).2.rank
          < ((process_poll_data (some opts) cfg).get ⟨j, hj⟩).2.rank)
    ∧ (1 ≤ ((process_poll_data (some opts) cfg).get ⟨i, hi⟩).2.rank
        ∧ ((process_poll_data (some opts) cfg).get ⟨i, hi⟩).2.rank
          ≤ (process_poll_data (some opts) cfg).length) := by
  obtain ⟨hrank_i, hvote_i, hmem_i⟩ := poll_entry_spec opts cfg i hi
  obtain ⟨hrank_j, hvote_j, hmem_j⟩ := poll_entry_spec opts cfg j hj
  have hsnd : ((build_snapshot (abbr_to_id cfg) opts).map Prod.fst).Nodup :=
    build_snapshot_keys_nodup _ _
  have hkeys : (process_poll_data (some opts) cfg).map Prod.fst
      = (build_snapshot (abbr_to_id cfg) opts).map Prod.fst :=
    assign_keys_eq _ 1 _
  have hdnd : ((process_poll_data (some opts) cfg).map Prod.fst).Nodup := by
    rw [hkeys]
    exact hsnd
  have hsknd : (sorted_keys (build_snapshot (abbr_to_id cfg) opts)).Nodup :=
    (sorted_keys_perm _).nodup_iff.mpr hsnd
  set dog := process_poll_data (some opts) cfg with hdog
  set snap := build_snapshot (abbr_to_id cfg) opts with hsnap
  set sk := sorted_keys snap with hsk
  set ki := (dog.get ⟨i, hi⟩).1 with hki
  set kj := (dog.get ⟨j, hj⟩).1 with hkj
  have hidxi : List.indexOf ki sk < sk.length := List.indexOf_lt_length.mpr hmem_i
  have hidxj : List.indexOf kj sk < sk.length := List.indexOf_lt_length.mpr hmem_j
  have hlensk : sk.length = dog.length := by
    rw [hsk, sorted_keys_length]
    have hc := congrArg List.length hkeys
    simp only [List.length_map] at hc
    omega
  refine ⟨?_, ?_, ?_⟩
  · intro hv
    rw [hrank_i, hrank_j]
    have hne : ki ≠ kj := by
      intro he
      have h1 : voteOf snap ki = voteOf snap kj := by rw [he]
      rw [hvote_i, hvote_j] at h1
      omega
    have hlt : List.indexOf ki sk < List.indexOf kj sk := by
      by_contra hcon
      push_neg at hcon
      have hsplit : List.indexOf kj sk < List.indexOf ki sk
          ∨ List.indexOf kj sk = List.indexOf ki sk := by omega
      rcases hsplit with hlt2 | heq
      · have hsort := sorted_keys_sorted snap
        have hrel := List.pairwise_iff_getElem.mp hsort _ _ hidxj hidxi hlt2
        rw [List.getElem_indexOf hidxi, List.getElem_indexOf hidxj] at hrel
        rw [hvote_i, hvote_j] at hrel
        omega
      · apply hne
        calc ki = sk[List.indexOf ki sk] := (List.getElem_indexOf hidxi).symm
          _ = sk[List.indexOf kj sk] := by
              congr 1
              omega
          _ = kj := List.getElem_indexOf hidxj
    omega
  · intro hij hveq
    rw [hrank_i, hrank_j]
    have hilen : i < (dog.map Prod.fst).length := by simpa using hi
    have hjlen : j < (dog.map Prod.fst).length := by simpa using hj
    have hpair : List.Sublist [ki, kj] (dog.map Prod.fst) := by
      have hp := pair_sublist_of_lt (dog.map Prod.fst) i j hilen hjlen hij
      simp only [List.get_map] at hp
      exact hp
    have hpairsnap : List.Sublist [ki, kj] (snap.map Prod.fst) := by
      rw [← hkeys]
      exact hpair
    have hr : voteOf snap kj ≤ voteOf snap ki := by
      rw [hvote_i, hvote_j, hveq]
    have hsub : List.Sublist [ki, kj] sk := by
      rw [hsk]
      show List.Sublist [ki, kj]
        (List.insertionSort (fun k1 k2 => voteOf snap k2 ≤ voteOf snap k1)
          (snap.map Prod.fst))
      exact @pair_sublist_insertionSort String
        (fun k1 k2 => voteOf snap k2 ≤ voteOf snap k1) (fun a b => Nat.decLe _ _)
        ki kj hr (snap.map Prod.fst) hpairsnap
    have := indexOf_lt_of_pair_sublist sk hsub hsknd
    omega
  · rw [hrank_i]
    refine ⟨Nat.le_add_right 1 _, ?_⟩
    calc 1 + List.indexOf ki sk ≤ sk.length := by omega
      _ = dog.length := hlensk

/-! ### Claim C8 -/

/-- Claim C8 (amended): process_poll_data assigns 1-based ranks by descending
vote count and entries with equal vote counts keep their original relative
order (stable ordering); for votes [10, 30, 30, 5] in input order the
assigned ranks are [3, 1, 2, 4]. -/
theorem poll_ranking_stable_descending :
    ((process_poll_data (some [⟨"A", "+100", 10⟩, ⟨"B", "+100", 30⟩,
          ⟨"C", "+100", 30⟩, ⟨"D", "+100", 5⟩]) []).map fun kv => kv.2.rank) = [3, 1, 2, 4]
    ∧ ∀ (raw : Option (List PollOption)) (cfg : List (String × TeamInfo))
        (i j : ℕ) (hi : i < (process_poll_data raw cfg).length)
        (hj : j < (process_poll_data raw cfg).length),
        (((process_poll_data raw cfg).get ⟨j, hj⟩).2.votes
            < ((process_poll_data raw cfg).get ⟨i, hi⟩).2.votes →
          ((process_poll_data raw cfg).get ⟨i, hi⟩).2.rank
            < ((process_poll_data raw cfg).get ⟨j, hj⟩).2.rank)
        ∧ (i < j →
            ((process_poll_data raw cfg).get ⟨i, hi⟩).2.votes
              = ((process_poll_data raw cfg).get ⟨j, hj⟩).2.votes →
            ((process_poll_data raw cfg).get ⟨i, hi⟩).2.rank
              < ((process_poll_data raw cfg).get ⟨j, hj⟩).2.rank)
        ∧ (1 ≤ ((process_poll_data raw cfg).get ⟨i, hi⟩).2.rank
            ∧ ((process_poll_data raw cfg).get ⟨i, hi⟩).2.rank
              ≤ (process_poll_data raw cfg).length) := by
  constructor
  · decide
  · intro raw cfg i j hi hj
    cases raw with
    | none => exact absurd hi (by simp [process_poll_data])
    | some opts => exact poll_rank_props opts cfg i j hi hj

/-- Witness for C8: in the concrete example, the two 30-vote entries keep
their input order (the rank at position 1 is below the rank at position 2). -/
theorem poll_ranking_stable_descending_witness :
    ((process_poll_data (some [⟨"A", "+100", 10⟩, ⟨"B", "+100", 30⟩,
          ⟨"C", "+100", 30⟩, ⟨"D", "+100", 5⟩]) []).get ⟨1, by decide⟩).2.rank
      < ((process_poll_data (some [⟨"A", "+100", 10⟩, ⟨"B", "+100", 30⟩,
          ⟨"C", "+100", 30⟩, ⟨"D", "+100", 5⟩]) []).get ⟨2, by decide⟩).2.rank :=
  (poll_ranking_stable_descending.2 (some [⟨"A", "+100", 10⟩, ⟨"B", "+100", 30⟩,
      ⟨"C", "+100", 30⟩, ⟨"D", "+100", 5⟩]) [] 1 2 (by decide) (by decide)).2.1
    (by decide) (by decide)

/-- Claim C8 counterexample: votes [10, 30, 30, 5] in input order produce the
ranks [3, 1, 2, 4], not the claimed [4, 1, 2, 3]: in descending vote order
the 10-vote entry must rank above the 5-vote entry. -/
theorem poll_ranking_example_counterexample :
    ((process_poll_data (some [⟨"A", "+100", 10⟩, ⟨"B", "+100", 30⟩,
          ⟨"C", "+100", 30⟩, ⟨"D", "+100", 5⟩]) []).map fun kv => kv.2.rank) ≠ [4, 1, 2, 3] := by
  decide
